import Mathlib

/-!
Verification of the crawl-extract-chunk pipeline of scraper.py: URL scope
filtering, link discovery, content extraction, text chunking, and the
breadth-first crawl loop with its visited-set/queue bookkeeping.

External collaborators (the HTTP fetcher, the HTML parser, the langchain
text splitter, the Python standard library URL functions, and the CPython
set iteration order) are not part of the repository source; following the
specification they are modelled as explicit inputs (an environment of
functions) or as definitions written from the specifications of those
interfaces.  Every function that does come from scraper.py is translated
directly from its source.
-/

namespace Scraper

/-- Configuration constant from scraper.py: the seed/base URL of the crawl. -/
def BASE_URL : String := "https://www.madewithnestle.ca/"

/-- Configuration constant from scraper.py: the page budget of a crawl run. -/
def MAX_PAGES_TO_SCRAPE : Nat := 50

/-- ASCII whitespace, as matched by the regular expression class backslash-s
used in clean_text (the model restricts to the ASCII range). -/
def isSpaceChar (c : Char) : Bool :=
  c == ' ' || c == '\n' || c == '\t' || c == '\r' || c == '\x0b' || c == '\x0c'

/-- Characters allowed in a URL scheme after the first letter. -/
def schemeCharOk (c : Char) : Bool :=
  c.isAlpha || c.isDigit || c == '+' || c == '-' || c == '.'

/-- Splits a character list at the first colon: some (before, after), or
none when no colon occurs. -/
def findColon : List Char → Option (List Char × List Char)
  | [] => none
  | c :: rest =>
    if c == ':' then some ([], rest)
    else
      match findColon rest with
      | some p => some (c :: p.1, p.2)
      | none => none

/-- Splits a character list at the first occurrence of a character:
(before, after); when the character is absent, (whole input, []). -/
def splitFirst (ch : Char) : List Char → List Char × List Char
  | [] => ([], [])
  | c :: rest =>
    if c == ch then ([], rest)
    else ((c :: (splitFirst ch rest).1), (splitFirst ch rest).2)

/-- Substring containment on character lists, the model of the Python
expression sub in s. -/
def containsSub (sub : List Char) : List Char → Bool
  | [] => sub == []
  | c :: rest => sub.isPrefixOf (c :: rest) || containsSub sub rest

/-- Substring containment on strings. -/
def containsSubS (sub s : String) : Bool :=
  containsSub sub.toList s.toList

/-- The model of the Python expression s.endswith(suf). -/
def endsWithS (suf s : String) : Bool :=
  suf.toList.reverse.isPrefixOf s.toList.reverse

/-- The model of the Python expression p.startswith(q), used to state
facts about URLs; also the basis of the urljoin model. -/
def startsWithS (pre s : String) : Bool :=
  pre.toList.isPrefixOf s.toList

/-- The components of a parsed URL as produced by urllib.parse.urlparse:
scheme, netloc, path, query, fragment (params splitting is not modelled;
none of the URLs considered here carry params). -/
structure ParseResult where
  scheme : String
  netloc : String
  path : String
  query : String
  fragment : String
deriving Repr, DecidableEq

/-- Modelled from the spec: URL component splitting (urllib.parse.urlparse
is outside this repository).  A leading scheme is recognized when the text
before the first colon starts with a letter and consists of scheme
characters; the scheme is lowercased.  A netloc follows a double slash and
extends to the next slash, question mark or hash.  The fragment is split
off at the first hash of the remainder, then the query at the first
question mark, leaving the path.  The netloc is not lowercased, matching
the case-sensitive ParseResult.netloc attribute. -/
def urlparse (url : String) : ParseResult :=
  let cs := url.toList
  let sp :=
    match findColon cs with
    | some (pre, post) =>
      match pre with
      | [] => (([] : List Char), cs)
      | c :: _ =>
        if c.isAlpha && pre.all schemeCharOk then (pre.map Char.toLower, post)
        else (([] : List Char), cs)
    | none => (([] : List Char), cs)
  let rest1 := sp.2
  let np :=
    match rest1 with
    | '/' :: '/' :: tail =>
      (tail.takeWhile (fun c => !(c == '/' || c == '?' || c == '#')),
       tail.dropWhile (fun c => !(c == '/' || c == '?' || c == '#')))
    | _ => (([] : List Char), rest1)
  let bf := splitFirst '#' np.2
  let pq := splitFirst '?' bf.1
  ⟨String.mk sp.1, String.mk np.1, String.mk pq.1, String.mk pq.2, String.mk bf.2⟩

/-- The tuple of disallowed binary/media path endings from is_valid_url. -/
def disallowedExts : List String :=
  [".pdf", ".jpg", ".jpeg", ".png", ".gif", ".zip", ".mp4", ".mov", ".avi"]

/-- Translation of is_valid_url (scraper.py lines 19-28): the URL must have
an http or https scheme, the same netloc as BASE_URL, a path not ending in
a disallowed extension, an empty query, and its full text must not contain
the substrings mailto: or tel:. -/
def is_valid_url (url : String) : Bool :=
  let parsed_base := urlparse BASE_URL
  let parsed_url := urlparse url
  (parsed_url.scheme == "http" || parsed_url.scheme == "https") &&
  parsed_url.netloc == parsed_base.netloc &&
  !(disallowedExts.any (fun e => endsWithS e parsed_url.path)) &&
  parsed_url.query == "" &&
  !(containsSubS "mailto:" url) &&
  !(containsSubS "tel:" url)

/-- The directory part of a path: everything up to and including the last
slash, or a single slash when the path has none. -/
def dirOf (path : String) : String :=
  let r := path.toList.reverse
  let cut := r.dropWhile (fun c => !(c == '/'))
  match cut with
  | [] => "/"
  | _ => String.mk cut.reverse

/-- Tests whether a string carries a URL scheme, per the urlparse model. -/
def hasScheme (s : String) : Bool :=
  match findColon s.toList with
  | some (pre, _) =>
    match pre with
    | [] => false
    | c :: _ => c.isAlpha && pre.all schemeCharOk
  | none => false

/-- Modelled from the spec: relative-link resolution against the page URL
(urllib.parse.urljoin is outside this repository).  Covers the reference
forms the crawl encounters: absolute references (returned unchanged),
network-path references starting with a double slash, absolute-path
references starting with a slash, fragment-only and query-only references,
and plain relative references resolved against the directory of the base
path.  Dot-segment normalization and same-scheme relative references are
not modelled. -/
def urljoin (base href : String) : String :=
  let b := urlparse base
  if href = "" then base
  else if hasScheme href then href
  else if startsWithS "//" href then b.scheme ++ ":" ++ href
  else if startsWithS "/" href then b.scheme ++ "://" ++ b.netloc ++ href
  else if startsWithS "#" href then
    b.scheme ++ "://" ++ b.netloc ++ b.path ++
      (if b.query = "" then "" else "?" ++ b.query) ++ href
  else if startsWithS "?" href then b.scheme ++ "://" ++ b.netloc ++ b.path ++ href
  else b.scheme ++ "://" ++ b.netloc ++ dirOf b.path ++ href

/-- Insertion into a Python set modelled as an insertion-ordered duplicate
free list: append the element when it is not already present. -/
def setAdd (s : List String) (x : String) : List String :=
  if x ∈ s then s else s ++ [x]

/-- The model of absolute_link.split(hash)[0]: the URL text before the
first hash character. -/
def stripFragment (s : String) : String :=
  String.mk (splitFirst '#' s.toList).1

/-- Translation of extract_links (scraper.py lines 53-62).  The HTML parser
is an external collaborator, so the raw HTML is represented by the list of
href attribute values of its anchor tags in document order.  Each href is
resolved against the current URL, filtered through is_valid_url, stripped
of its fragment and added to a set; the final list(links) call is modelled
by the function setOrder, the iteration order of a CPython set for the
active interpreter (hash-seed dependent). -/
def extract_links (setOrder : List String → List String)
    (anchors : List String) (current_url : String) : List String :=
  setOrder (anchors.foldl
    (fun links href =>
      let absolute_link := urljoin current_url href
      if is_valid_url absolute_link then setAdd links (stripFragment absolute_link)
      else links)
    [])

/-- Collapses every run of whitespace characters to a single space. -/
def squeezeWS : List Char → List Char
  | [] => []
  | [c] => [if isSpaceChar c then ' ' else c]
  | c :: d :: rest =>
    if isSpaceChar c && isSpaceChar d then squeezeWS (d :: rest)
    else (if isSpaceChar c then ' ' else c) :: squeezeWS (d :: rest)

/-- Translation of clean_text (scraper.py lines 64-68): replace each
whitespace run by a single space, then strip leading and trailing
whitespace. -/
def clean_text (text : String) : String :=
  String.mk (((squeezeWS text.toList).dropWhile isSpaceChar).reverse.dropWhile
    isSpaceChar).reverse

/-- The model of the Python str.strip() call: remove leading and trailing
whitespace. -/
def stripStr (s : String) : String :=
  String.mk ((s.toList.dropWhile isSpaceChar).reverse.dropWhile isSpaceChar).reverse

/-- The model of the Python str.rstrip with a semicolon argument: remove
trailing semicolons. -/
def rstripSemi (s : String) : String :=
  String.mk (s.toList.reverse.dropWhile (fun c => c == ';')).reverse

/-- Counts maximal nonspace runs; the model of len(s.split()) in Python. -/
def wordCountAux : List Char → Bool → Nat
  | [], _ => 0
  | c :: rest, inWord =>
    if isSpaceChar c then wordCountAux rest false
    else (if inWord then 0 else 1) + wordCountAux rest true

/-- The number of whitespace-separated words of a string. -/
def wordCount (s : String) : Nat :=
  wordCountAux s.toList false

/-- The model of sep.join(parts) in Python. -/
def joinWith (sep : String) : List String → String
  | [] => ""
  | [x] => x
  | x :: y :: rest => x ++ sep ++ joinWith sep (y :: rest)

/-- One candidate main-content region of a parsed page, as consumed by
extract_meaningful_content.  The HTML parser is an external collaborator
(spec section 6), so a region is represented by the results of the queries
the code performs on it after boilerplate removal: the raw text of each
heading, paragraph and list item in document order; the raw item texts of
the ingredients container selected by select_one, when one matches; the
raw item texts of the instructions container; the raw text of the product
description container; and the raw cell texts of each row of the
nutrition table. -/
structure Region where
  textNodes : List String
  ingredientsItems : Option (List String)
  instructionItems : Option (List String)
  productDesc : Option String
  nutritionRows : Option (List (List String))
deriving Repr, DecidableEq

/-- A title element as surfaced by the parser: its string attribute is
the element's single string child when it has exactly one, and None (here
none) otherwise - in particular for an empty or multi-child title
element. -/
structure TitleTag where
  string : Option String
deriving Repr, DecidableEq

/-- A parsed page, as consumed by extract_meaningful_content: the title
element when one is present (whose string may itself be missing), the
regions matched by the main-content selector list, and the document body
used as the fallback region when no main-content selector matches. -/
structure Soup where
  title : Option TitleTag
  mainRegions : List Region
  body : Option Region
deriving Repr, DecidableEq

/-- A well-formed parsed page: one whose title element, when present, has
a string child.  The crawl-loop model takes the parser to yield such
documents; on any other document the source program aborts inside
extract_meaningful_content with the TypeError traced in claim C8, before
the iteration completes. -/
structure WfSoup where
  title : Option String
  mainRegions : List Region
  body : Option Region
deriving Repr, DecidableEq

/-- The parsed page denoted by a well-formed page. -/
def WfSoup.toSoup (s : WfSoup) : Soup :=
  { title := s.title.map (fun x => { string := some x }),
    mainRegions := s.mainRegions, body := s.body }

/-- Translation of the ingredients block of extract_meaningful_content
(scraper.py lines 105-111): when an ingredients container was selected,
accumulate each cleaned item text followed by a semicolon and space onto
the prefixed text, and emit the stripped result only when the accumulated
text is longer than the bare prefixed text. -/
def ingredientsSection (content_area : Region) : List String :=
  match content_area.ingredientsItems with
  | none => []
  | some items =>
    let ingredients_text :=
      items.foldl (fun acc item => acc ++ clean_text item ++ "; ") "Ingredients: "
    if "Ingredients: ".length < ingredients_text.length then
      [rstripSemi (stripStr ingredients_text)]
    else []

/-- Translation of the instructions block of extract_meaningful_content
(scraper.py lines 114-124): accumulate each nonempty cleaned item text as
a numbered step with a running one-based counter, and emit the stripped
result only when the accumulated text is longer than the bare prefixed
text. -/
def instructionsSection (content_area : Region) : List String :=
  match content_area.instructionItems with
  | none => []
  | some items =>
    let p := items.foldl
      (fun acc item =>
        let step_text := clean_text item
        if step_text ≠ "" then
          (acc.1 ++ toString acc.2 ++ ". " ++ step_text ++ " ", acc.2 + 1)
        else acc)
      ("Instructions: ", 1)
    if "Instructions: ".length < p.1.length then [stripStr p.1] else []

/-- Translation of the product-description block of
extract_meaningful_content (scraper.py lines 127-129): emitted
unconditionally whenever the container was selected. -/
def productDescSection (content_area : Region) : List String :=
  match content_area.productDesc with
  | none => []
  | some d => ["Product Description: " ++ clean_text d]

/-- Translation of the nutrition-table block of extract_meaningful_content
(scraper.py lines 131-139): for each row with at least one cell, join the
cleaned cell texts with a bar separator and accumulate with a trailing
semicolon and space; emit the stripped result only when the accumulated
text is longer than the bare prefixed text. -/
def nutritionSection (content_area : Region) : List String :=
  match content_area.nutritionRows with
  | none => []
  | some rows =>
    let nutrition_text := rows.foldl
      (fun acc row =>
        let cells := row.map clean_text
        if cells ≠ [] then acc ++ joinWith " | " cells ++ "; " else acc)
      "Nutritional Information: "
    if "Nutritional Information: ".length < nutrition_text.length then
      [rstripSemi (stripStr nutrition_text)]
    else []

/-- The texts one region contributes, in the order extract_meaningful_content
appends them: cleaned heading/paragraph/list-item texts that are nonempty
and longer than three words, then the four structured sections. -/
def regionTexts (content_area : Region) : List String :=
  ((content_area.textNodes.map clean_text).filter
      (fun t => decide (t ≠ "" ∧ 3 < wordCount t)))
    ++ ingredientsSection content_area
    ++ instructionsSection content_area
    ++ productDescSection content_area
    ++ nutritionSection content_area

/-- Translation of extract_meaningful_content (scraper.py lines 70-143).
Line 75 evaluates soup.title.string when a title element is present - a
value that is None when the element does not have exactly one string
child, e.g. an empty title element - and the fixed placeholder otherwise;
line 76 then applies clean_text, whose re.sub call raises a TypeError
when handed None.  That raise is modelled by the error result.  Otherwise
the regions are the main-content matches, falling back to the body (or to
no region at all when there is no body), and the page text joins every
collected fragment with a newline. -/
def extract_meaningful_content (soup : Soup) : Except String (String × String) :=
  let title0 : Option String :=
    match soup.title with
    | some t => t.string
    | none => some "No Title"
  match title0 with
  | none => Except.error "TypeError: expected string or bytes-like object"
  | some s =>
    let title := clean_text s
    let main_content_elements :=
      if soup.mainRegions ≠ [] then soup.mainRegions
      else match soup.body with | some b => [b] | none => []
    Except.ok (title, joinWith "\n" (main_content_elements.flatMap regionTexts))

/-- The extraction restricted to well-formed parsed pages, on which the
TypeError path of extract_meaningful_content is unreachable; the theorem
extractWf_agrees states that it returns exactly the successful result of
extract_meaningful_content on the denoted page. -/
def extractWf (soup : WfSoup) : String × String :=
  let title := clean_text (match soup.title with | some s => s | none => "No Title")
  let main_content_elements :=
    if soup.mainRegions ≠ [] then soup.mainRegions
    else match soup.body with | some b => [b] | none => []
  (title, joinWith "\n" (main_content_elements.flatMap regionTexts))

/-- Fuel-indexed splitting of a character list on a separator occurrence,
scanning left to right without overlap; the model of Python str.split. -/
def splitOnAux (sep : List Char) : Nat → List Char → List (List Char)
  | _, [] => [[]]
  | 0, cs => [cs]
  | fuel + 1, c :: rest =>
    if sep ≠ [] ∧ sep.isPrefixOf (c :: rest) then
      [] :: splitOnAux sep fuel ((c :: rest).drop sep.length)
    else
      match splitOnAux sep fuel rest with
      | [] => [[c]]
      | p :: ps => (c :: p) :: ps

/-- Splits a character list on every occurrence of a separator. -/
def splitOnL (sep cs : List Char) : List (List Char) :=
  splitOnAux sep cs.length cs

/-- Fuel-indexed hard cut of a character list into consecutive pieces of at
most maxSize characters. -/
def hardCutAux (maxSize : Nat) : Nat → List Char → List (List Char)
  | 0, t => [t]
  | fuel + 1, t =>
    if t.length ≤ maxSize then [t]
    else t.take maxSize :: hardCutAux maxSize fuel (t.drop maxSize)

/-- Hard character cut at the size boundary, the last-resort splitting
strategy. -/
def hardCut (maxSize : Nat) (t : List Char) : List (List Char) :=
  if maxSize = 0 then [t] else hardCutAux maxSize t.length t

/-- Modelled from the spec: the prioritized separator list of the recursive
splitter (paragraph breaks, then sentence breaks, then spaces; the hard
character cut is the final fallback). -/
def separatorsL : List (List Char) :=
  [['\n', '\n'], ['.', ' '], [' ']]

/-- Modelled from the spec: the recursive-descent phase of the text
splitter (langchain.text_splitter.RecursiveCharacterTextSplitter is
outside this repository).  A text within the size bound stays whole;
otherwise the first separator that actually splits it is applied and each
piece recurses on the remaining separators; when no separator remains, the
hard character cut applies. -/
def splitUnits (maxSize : Nat) : List (List Char) → List Char → List (List Char)
  | [], t => if t.length ≤ maxSize then [t] else hardCut maxSize t
  | s :: rest, t =>
    if t.length ≤ maxSize then [t]
    else if (splitOnL s t).length ≤ 1 then splitUnits maxSize rest t
    else (splitOnL s t).flatMap (splitUnits maxSize rest)

/-- Modelled from the spec: the merge phase of the text splitter.  Units
are greedily packed into a buffer while the joined length stays within
maxSize; when the next unit does not fit, the buffer is emitted as a chunk
and the next buffer starts from the trailing overlap of the emitted chunk
when that still fits together with the unit, or from the unit alone
otherwise, so consecutive chunks share trailing/leading content. -/
def mergeUnits (maxSize overlap : Nat) (sep : List Char) :
    List Char → List (List Char) → List (List Char)
  | buf, [] => if buf = [] then [] else [buf]
  | buf, u :: us =>
    if buf = [] then mergeUnits maxSize overlap sep u us
    else if buf.length + sep.length + u.length ≤ maxSize then
      mergeUnits maxSize overlap sep (buf ++ sep ++ u) us
    else
      buf :: mergeUnits maxSize overlap sep
        (if (buf.drop (buf.length - overlap)).length + sep.length + u.length ≤ maxSize
         then buf.drop (buf.length - overlap) ++ sep ++ u
         else u) us

/-- Modelled from the spec: the full recursive text splitter with overlap,
splitting into units along the separator priority list and merging them
into chunks joined at word boundaries. -/
def splitText (chunk_size chunk_overlap : Nat) (t : String) : List String :=
  (mergeUnits chunk_size chunk_overlap [' '] []
    (splitUnits chunk_size separatorsL t.toList)).map String.mk

/-- The chunk record shape produced by chunk_page_content. -/
structure Chunk where
  url : String
  title : String
  chunk_id : Nat
  text : String
deriving Repr, DecidableEq

/-- The model of the enumerate loop of chunk_page_content: each split text
becomes a record carrying the page URL, the page title and its position
counter. -/
def mkChunks (url title : String) : Nat → List String → List Chunk
  | _, [] => []
  | i, t :: ts => ⟨url, title, i, t⟩ :: mkChunks url title (i + 1) ts

/-- Translation of chunk_page_content (scraper.py lines 146-173): an empty
page text yields no chunks; otherwise the page text is split with chunk
size 2000 and overlap 200 and each piece is wrapped in a record whose
chunk_id is its zero-based position. -/
def chunk_page_content (title page_text url : String) : List Chunk :=
  if page_text = "" then []
  else mkChunks url title 0 (splitText 2000 200 page_text)

/-- Observable events of one crawl run: a fetch attempt on a URL with its
success flag, the politeness sleep, and the dequeue-time skip of an
already visited URL. -/
inductive Ev where
  | fetch (url : String) (ok : Bool)
  | sleep
  | skip
deriving Repr, DecidableEq

/-- The mutable state of the main crawl loop (scraper.py lines 181-222),
plus a ghost event trace recording fetch attempts, sleeps and skips in
program order. -/
structure CrawlState where
  allChunks : List Chunk
  urlsToVisit : List String
  visitedUrls : List String
  pagesScrapedCount : Nat
  trace : List Ev
deriving Repr, DecidableEq

/-- The external collaborators of one crawl run: the fetcher (returning
the page HTML or none on failure), the HTML parser (yielding well-formed
pages - see WfSoup and claim C8 for the aborting alternative), the anchor
hrefs the parser finds in a raw HTML text, and the set iteration order of
the interpreter. -/
structure Env where
  fetchPage : String → Option String
  parse : String → WfSoup
  anchors : String → List String
  setOrder : List String → List String

/-- The URLs of all fetch attempts recorded in a trace, in order. -/
def fetchedUrls (t : List Ev) : List String :=
  t.filterMap (fun e => match e with | Ev.fetch u _ => some u | _ => none)

/-- The number of successful fetch events recorded in a trace. -/
def countSucc (t : List Ev) : Nat :=
  (t.filter (fun e => match e with | Ev.fetch _ true => true | _ => false)).length

/-- Tests whether an event list starts with a sleep event. -/
def headSleep : List Ev → Bool
  | Ev.sleep :: _ => true
  | _ => false

/-- Tests that every successful fetch event of the trace is immediately
followed by a sleep event. -/
def succSlept : List Ev → Bool
  | [] => true
  | Ev.fetch _ true :: rest => headSleep rest && succSlept rest
  | _ :: rest => succSlept rest

/-- Tests that every fetch event of the trace, successful or failed, is
immediately followed by a sleep event. -/
def allSlept : List Ev → Bool
  | [] => true
  | Ev.fetch _ _ :: rest => headSleep rest && allSlept rest
  | _ :: rest => allSlept rest

/-- The enqueue loop over discovered links (scraper.py lines 216-218): a
link is appended to the back of the queue only when it is neither visited
nor already queued. -/
def newQueue (visited : List String) (q links : List String) : List String :=
  links.foldl (fun q link => if link ∉ visited ∧ link ∉ q then q ++ [link] else q) q

/-- The chunk accumulation of a successful iteration (scraper.py lines
203-210): chunks are produced only for a nonempty page text and appended
to the output collection only when the chunk list is nonempty. -/
def chunksAfter (acc : List Chunk) (page_title page_text current_url : String) :
    List Chunk :=
  if page_text ≠ "" then
    if chunk_page_content page_title page_text current_url ≠ [] then
      acc ++ chunk_page_content page_title page_text current_url
    else acc
  else acc

/-- The successful-fetch branch of one crawl iteration (scraper.py lines
194-220): mark the URL visited, consume one unit of the page budget,
extract and chunk the content, enqueue the newly discovered links, and
sleep. -/
def processSuccess (env : Env) (st : CrawlState) (current_url : String)
    (rest : List String) (html_content : String) : CrawlState :=
  { allChunks := chunksAfter st.allChunks
      (extractWf (env.parse html_content)).1
      (extractWf (env.parse html_content)).2 current_url,
    urlsToVisit := newQueue (setAdd st.visitedUrls current_url) rest
      (extract_links env.setOrder (env.anchors html_content) current_url),
    visitedUrls := setAdd st.visitedUrls current_url,
    pagesScrapedCount := st.pagesScrapedCount + 1,
    trace := st.trace ++ [Ev.fetch current_url true, Ev.sleep] }

/-- One iteration of the crawl loop body (scraper.py lines 187-222): pop
the front of the queue; skip it when already visited; otherwise attempt
the fetch, and on failure mark the URL visited without consuming budget
and without sleeping. -/
def crawlIter (env : Env) (st : CrawlState) : CrawlState :=
  match st.urlsToVisit with
  | [] => st
  | current_url :: rest =>
    if current_url ∈ st.visitedUrls then
      { st with urlsToVisit := rest, trace := st.trace ++ [Ev.skip] }
    else
      match env.fetchPage current_url with
      | some html_content => processSuccess env st current_url rest html_content
      | none =>
        { st with urlsToVisit := rest,
                  visitedUrls := setAdd st.visitedUrls current_url,
                  trace := st.trace ++ [Ev.fetch current_url false] }

/-- The crawl loop (scraper.py line 186): iterate while the queue is
nonempty and the consumed-page counter is below the budget K. -/
def crawlLoop (env : Env) (K : Nat) (st : CrawlState) : CrawlState :=
  if h : st.urlsToVisit ≠ [] ∧ st.pagesScrapedCount < K then
    crawlLoop env K (crawlIter env st)
  else st
termination_by (K - st.pagesScrapedCount, st.urlsToVisit.length)
decreasing_by
  rcases hq : st.urlsToVisit with _ | ⟨c, rest⟩
  · exact absurd hq h.1
  · by_cases hv : c ∈ st.visitedUrls
    · have h1 : (crawlIter env st).pagesScrapedCount = st.pagesScrapedCount := by
        simp [crawlIter, hq, hv]
      have h2 : (crawlIter env st).urlsToVisit = rest := by
        simp [crawlIter, hq, hv]
      rw [h1, h2]
      apply Prod.Lex.right
      simp
    · rcases hf : env.fetchPage c with _ | html
      · have h1 : (crawlIter env st).pagesScrapedCount = st.pagesScrapedCount := by
          simp [crawlIter, hq, hv, hf]
        have h2 : (crawlIter env st).urlsToVisit = rest := by
          simp [crawlIter, hq, hv, hf]
        rw [h1, h2]
        apply Prod.Lex.right
        simp
      · have h1 : (crawlIter env st).pagesScrapedCount = st.pagesScrapedCount + 1 := by
          simp [crawlIter, hq, hv, hf, processSuccess]
        rw [h1]
        apply Prod.Lex.left
        omega

/-- The crawl loop indexed by explicit fuel, returning none when the fuel
runs out before the loop condition turns false. -/
def crawlLoopFuel (env : Env) (K : Nat) : Nat → CrawlState → Option CrawlState
  | 0, st =>
    if st.urlsToVisit ≠ [] ∧ st.pagesScrapedCount < K then none else some st
  | n + 1, st =>
    if st.urlsToVisit ≠ [] ∧ st.pagesScrapedCount < K then
      crawlLoopFuel env K n (crawlIter env st)
    else some st

/-- The initial crawl state (scraper.py lines 181-184) with an arbitrary
seed URL in place of the constant BASE_URL. -/
def initState (seed : String) : CrawlState :=
  { allChunks := [], urlsToVisit := [seed], visitedUrls := [],
    pagesScrapedCount := 0, trace := [] }

/-- The states reachable from a given crawl state by iterations executed
under the loop condition. -/
inductive Reach (env : Env) (K : Nat) : CrawlState → CrawlState → Prop where
  | refl (st : CrawlState) : Reach env K st st
  | step {a b : CrawlState} : Reach env K a b → b.urlsToVisit ≠ [] →
      b.pagesScrapedCount < K → Reach env K a (crawlIter env b)

/-- The inductive invariant of the crawl loop: the queue is duplicate free
and disjoint from the visited set, the visited set and the list of fetched
URLs are duplicate free, every fetched URL is recorded as visited, the
counter stays within the budget and counts exactly the successful fetches,
every successful fetch is followed by a sleep, and the skip branch never
ran. -/
def Inv (K : Nat) (st : CrawlState) : Prop :=
  st.urlsToVisit.Nodup ∧
  (∀ u ∈ st.urlsToVisit, u ∉ st.visitedUrls) ∧
  st.visitedUrls.Nodup ∧
  (fetchedUrls st.trace).Nodup ∧
  (∀ u ∈ fetchedUrls st.trace, u ∈ st.visitedUrls) ∧
  st.pagesScrapedCount ≤ K ∧
  st.pagesScrapedCount = countSucc st.trace ∧
  succSlept st.trace = true ∧
  Ev.skip ∉ st.trace

/-- A concrete environment whose fetcher fails on every URL. -/
def env0 : Env :=
  { fetchPage := fun _ => none,
    parse := fun _ => { title := none, mainRegions := [], body := none },
    anchors := fun _ => [],
    setOrder := fun l => l }

/-- A same-host, extension-free, query-free https URL whose text contains
the substring tel: inside a path segment. -/
def urlX : String := "https://www.madewithnestle.ca/hotel:deals"

/-- Two distinct in-scope absolute anchor hrefs, used to compare link
extraction under two interpreter set orders. -/
def anchorsC4 : List String :=
  ["https://www.madewithnestle.ca/a", "https://www.madewithnestle.ca/b"]

/-- A region whose ingredients container holds a single item whose text
normalizes to the empty string. -/
def regionC9 : Region :=
  { textNodes := [], ingredientsItems := some [" "], instructionItems := none,
    productDesc := none, nutritionRows := none }

/-- A region with a nonempty ingredients item and a nutrition table with
one nonempty row and one empty row, used as a concrete witness input. -/
def regionW : Region :=
  { textNodes := [], ingredientsItems := some ["2 cups flour"],
    instructionItems := none, productDesc := none,
    nutritionRows := some [["Calories", "200"], []] }

/-- A parsed page with a raw title needing normalization and no content
regions, used as a concrete witness input. -/
def soupW : Soup :=
  { title := some { string := some "  My   Page " }, mainRegions := [], body := none }

/-- A parsed page with no title element, used as a concrete witness
input. -/
def soupN : Soup :=
  { title := none, mainRegions := [], body := none }

/-- A parsed page whose title element is present but empty, so its string
attribute is missing - the input on which the source's extraction
raises. -/
def soupX : Soup :=
  { title := some { string := none }, mainRegions := [], body := none }

/-- Unfolding of the crawl loop when the loop condition holds. -/
theorem crawlLoop_continue (env : Env) (K : Nat) (st : CrawlState)
    (h : st.urlsToVisit ≠ [] ∧ st.pagesScrapedCount < K) :
    crawlLoop env K st = crawlLoop env K (crawlIter env st) := by
  rw [crawlLoop]
  exact dif_pos h

/-- Unfolding of the crawl loop when the loop condition fails. -/
theorem crawlLoop_stop (env : Env) (K : Nat) (st : CrawlState)
    (h : ¬(st.urlsToVisit ≠ [] ∧ st.pagesScrapedCount < K)) :
    crawlLoop env K st = st := by
  rw [crawlLoop]
  exact dif_neg h

/-- The functional induction principle of the crawl loop, restated. -/
theorem crawlLoop_rec (env : Env) (K : Nat) (P : CrawlState → Prop)
    (hstep : ∀ st, st.urlsToVisit ≠ [] ∧ st.pagesScrapedCount < K →
      P (crawlIter env st) → P st)
    (hstop : ∀ st, ¬(st.urlsToVisit ≠ [] ∧ st.pagesScrapedCount < K) → P st) :
    ∀ st, P st :=
  crawlLoop.induct env K P hstep hstop

/-- Membership after a set insertion. -/
theorem mem_setAdd {s : List String} {x u : String} :
    u ∈ setAdd s x ↔ u ∈ s ∨ u = x := by
  unfold setAdd
  by_cases hx : x ∈ s
  · rw [if_pos hx]
    constructor
    · exact fun h => Or.inl h
    · rintro (h | rfl)
      · exact h
      · exact hx
  · rw [if_neg hx]
    simp

/-- Set insertion preserves freedom from duplicates. -/
theorem setAdd_nodup {s : List String} {x : String} (h : s.Nodup) :
    (setAdd s x).Nodup := by
  unfold setAdd
  by_cases hx : x ∈ s
  · rwa [if_pos hx]
  · rw [if_neg hx]
    simp [List.nodup_append, h, hx]

/-- Appending a failed fetch event preserves the sleep-after-success
property of a trace. -/
theorem succSlept_append_fail (u : String) :
    ∀ t : List Ev, succSlept t = true → succSlept (t ++ [Ev.fetch u false]) = true
  | [], _ => by simp [succSlept, headSleep]
  | Ev.fetch v true :: t, h => by
    rw [List.cons_append]
    simp only [succSlept, Bool.and_eq_true] at h ⊢
    refine ⟨?_, succSlept_append_fail u t h.2⟩
    cases t with
    | nil => simp [headSleep] at h
    | cons e t' =>
      cases e <;> simp_all [headSleep]
  | Ev.fetch v false :: t, h => by
    rw [List.cons_append]
    simp only [succSlept] at h ⊢
    exact succSlept_append_fail u t h
  | Ev.sleep :: t, h => by
    rw [List.cons_append]
    simp only [succSlept] at h ⊢
    exact succSlept_append_fail u t h
  | Ev.skip :: t, h => by
    rw [List.cons_append]
    simp only [succSlept] at h ⊢
    exact succSlept_append_fail u t h

/-- Appending a successful fetch event immediately followed by a sleep
event preserves the sleep-after-success property of a trace. -/
theorem succSlept_append_succ (u : String) :
    ∀ t : List Ev, succSlept t = true →
      succSlept (t ++ [Ev.fetch u true, Ev.sleep]) = true
  | [], _ => by simp [succSlept, headSleep]
  | Ev.fetch v true :: t, h => by
    rw [List.cons_append]
    simp only [succSlept, Bool.and_eq_true] at h ⊢
    refine ⟨?_, succSlept_append_succ u t h.2⟩
    cases t with
    | nil => simp [headSleep] at h
    | cons e t' =>
      cases e <;> simp_all [headSleep]
  | Ev.fetch v false :: t, h => by
    rw [List.cons_append]
    simp only [succSlept] at h ⊢
    exact succSlept_append_succ u t h
  | Ev.sleep :: t, h => by
    rw [List.cons_append]
    simp only [succSlept] at h ⊢
    exact succSlept_append_succ u t h
  | Ev.skip :: t, h => by
    rw [List.cons_append]
    simp only [succSlept] at h ⊢
    exact succSlept_append_succ u t h

/-- Fetched URLs distribute over trace concatenation. -/
theorem fetchedUrls_append (t es : List Ev) :
    fetchedUrls (t ++ es) = fetchedUrls t ++ fetchedUrls es := by
  simp [fetchedUrls, List.filterMap_append]

/-- The fetched URLs of a single failed fetch event. -/
theorem fetchedUrls_fail (u : String) : fetchedUrls [Ev.fetch u false] = [u] := rfl

/-- The fetched URLs of a successful fetch event followed by a sleep. -/
theorem fetchedUrls_succ (u : String) :
    fetchedUrls [Ev.fetch u true, Ev.sleep] = [u] := rfl

/-- Successful-fetch counts distribute over trace concatenation. -/
theorem countSucc_append (t es : List Ev) :
    countSucc (t ++ es) = countSucc t + countSucc es := by
  simp [countSucc, List.filter_append]

/-- A failed fetch event contributes no successful-fetch count. -/
theorem countSucc_fail (u : String) : countSucc [Ev.fetch u false] = 0 := rfl

/-- A successful fetch event contributes one successful-fetch count. -/
theorem countSucc_succ (u : String) :
    countSucc [Ev.fetch u true, Ev.sleep] = 1 := rfl

/-- Appending a fresh element to a duplicate-free list keeps it duplicate
free. -/
theorem nodup_append_one {l : List String} {x : String} (h : l.Nodup)
    (hx : x ∉ l) : (l ++ [x]).Nodup := by
  rw [List.nodup_append]
  refine ⟨h, List.nodup_singleton x, ?_⟩
  intro a ha hax
  rw [List.mem_singleton.mp hax] at ha
  exact hx ha

/-- The enqueue loop preserves duplicate freedom of the queue and its
disjointness from the visited set. -/
theorem newQueue_inv (visited : List String) :
    ∀ (links q : List String), q.Nodup → (∀ u ∈ q, u ∉ visited) →
      (newQueue visited q links).Nodup ∧ (∀ u ∈ newQueue visited q links, u ∉ visited)
  | [], q, h1, h2 => by
    refine ⟨?_, ?_⟩ <;> simpa [newQueue] using by first | exact h1 | exact h2
  | l :: ls, q, h1, h2 => by
    have hstep : newQueue visited q (l :: ls)
        = newQueue visited (if l ∉ visited ∧ l ∉ q then q ++ [l] else q) ls := rfl
    rw [hstep]
    by_cases hc : l ∉ visited ∧ l ∉ q
    · rw [if_pos hc]
      refine newQueue_inv visited ls (q ++ [l]) ?_ ?_
      · simp [List.nodup_append, h1, hc.2]
      · intro u hu
        rcases List.mem_append.mp hu with h | h
        · exact h2 u h
        · rw [List.mem_singleton.mp h]
          exact hc.1
    · rw [if_neg hc]
      exact newQueue_inv visited ls q h1 h2

/-- One guarded crawl iteration preserves the loop invariant. -/
theorem inv_step (env : Env) (K : Nat) (st : CrawlState)
    (hg : st.urlsToVisit ≠ [] ∧ st.pagesScrapedCount < K) (hI : Inv K st) :
    Inv K (crawlIter env st) := by
  obtain ⟨hnd, hdisj, hvnd, hfnd, hfv, _hle, hcnt, hsleep, hskip⟩ := hI
  rcases hq : st.urlsToVisit with _ | ⟨c, rest⟩
  · exact absurd hq hg.1
  · have hcv : c ∉ st.visitedUrls := hdisj c (by rw [hq]; exact List.mem_cons_self c rest)
    rw [hq] at hnd
    have hrest_nd : rest.Nodup := hnd.of_cons
    have hc_rest : c ∉ rest := (List.nodup_cons.mp hnd).1
    have hrest_disj : ∀ u ∈ rest, u ∉ st.visitedUrls :=
      fun u hu => hdisj u (by rw [hq]; exact List.mem_cons_of_mem c hu)
    have hrest_disj2 : ∀ u ∈ rest, u ∉ setAdd st.visitedUrls c := by
      intro u hu hmem
      rcases mem_setAdd.mp hmem with h | rfl
      · exact hrest_disj u hu h
      · exact hc_rest hu
    have hcf : c ∉ fetchedUrls st.trace := fun hmem => hcv (hfv c hmem)
    rcases hf : env.fetchPage c with _ | html
    · have hit : crawlIter env st =
          { st with urlsToVisit := rest, visitedUrls := setAdd st.visitedUrls c,
                    trace := st.trace ++ [Ev.fetch c false] } := by
        simp [crawlIter, hq, hcv, hf]
      rw [hit]
      refine ⟨hrest_nd, hrest_disj2, setAdd_nodup hvnd, ?_, ?_, hg.2.le, ?_, ?_, ?_⟩
      · show (fetchedUrls (st.trace ++ [Ev.fetch c false])).Nodup
        rw [fetchedUrls_append, fetchedUrls_fail]
        exact nodup_append_one hfnd hcf
      · intro u hu
        have hu2 : u ∈ fetchedUrls (st.trace ++ [Ev.fetch c false]) := hu
        rw [fetchedUrls_append, fetchedUrls_fail] at hu2
        show u ∈ setAdd st.visitedUrls c
        rcases List.mem_append.mp hu2 with h | h
        · exact mem_setAdd.mpr (Or.inl (hfv u h))
        · rw [List.mem_singleton.mp h]
          exact mem_setAdd.mpr (Or.inr rfl)
      · show st.pagesScrapedCount = countSucc (st.trace ++ [Ev.fetch c false])
        rw [countSucc_append, countSucc_fail]
        simpa using hcnt
      · exact succSlept_append_fail c st.trace hsleep
      · show Ev.skip ∉ st.trace ++ [Ev.fetch c false]
        simp [hskip]
    · have hit : crawlIter env st = processSuccess env st c rest html := by
        simp [crawlIter, hq, hcv, hf]
      rw [hit]
      obtain ⟨hqnd, hqdisj⟩ := newQueue_inv (setAdd st.visitedUrls c)
        (extract_links env.setOrder (env.anchors html) c) rest hrest_nd hrest_disj2
      refine ⟨hqnd, hqdisj, setAdd_nodup hvnd, ?_, ?_, hg.2, ?_, ?_, ?_⟩
      · show (fetchedUrls (st.trace ++ [Ev.fetch c true, Ev.sleep])).Nodup
        rw [fetchedUrls_append, fetchedUrls_succ]
        exact nodup_append_one hfnd hcf
      · intro u hu
        have hu2 : u ∈ fetchedUrls (st.trace ++ [Ev.fetch c true, Ev.sleep]) := hu
        rw [fetchedUrls_append, fetchedUrls_succ] at hu2
        show u ∈ setAdd st.visitedUrls c
        rcases List.mem_append.mp hu2 with h | h
        · exact mem_setAdd.mpr (Or.inl (hfv u h))
        · rw [List.mem_singleton.mp h]
          exact mem_setAdd.mpr (Or.inr rfl)
      · show st.pagesScrapedCount + 1 = countSucc (st.trace ++ [Ev.fetch c true, Ev.sleep])
        rw [countSucc_append, countSucc_succ]
        omega
      · exact succSlept_append_succ c st.trace hsleep
      · show Ev.skip ∉ st.trace ++ [Ev.fetch c true, Ev.sleep]
        simp [hskip]

/-- The initial crawl state satisfies the loop invariant. -/
theorem inv_init (K : Nat) (seed : String) : Inv K (initState seed) := by
  refine ⟨?_, ?_, ?_, ?_, ?_, ?_, ?_, ?_, ?_⟩ <;>
    simp [initState, fetchedUrls, countSucc, succSlept]

/-- The crawl loop preserves the loop invariant. -/
theorem crawlLoop_inv (env : Env) (K : Nat) :
    ∀ st, Inv K st → Inv K (crawlLoop env K st) := by
  refine crawlLoop_rec env K (fun st => Inv K st → Inv K (crawlLoop env K st)) ?_ ?_
  · intro st hg ih hI
    rw [crawlLoop_continue env K st hg]
    exact ih (inv_step env K st hg hI)
  · intro st hng hI
    rw [crawlLoop_stop env K st hng]
    exact hI

/-- Every state reachable from an invariant state satisfies the
invariant. -/
theorem reach_inv (env : Env) (K : Nat) {a b : CrawlState}
    (h : Reach env K a b) (hI : Inv K a) : Inv K b := by
  induction h with
  | refl => exact hI
  | step hr h1 h2 ih => exact inv_step env K _ ⟨h1, h2⟩ ih

/-- Some finite fuel makes the fuel-indexed loop reach the crawl loop's
result. -/
theorem crawlLoopFuel_exists (env : Env) (K : Nat) :
    ∀ st, ∃ n, crawlLoopFuel env K n st = some (crawlLoop env K st) := by
  refine crawlLoop_rec env K _ ?_ ?_
  · intro st hg ih
    obtain ⟨n, hn⟩ := ih
    refine ⟨n + 1, ?_⟩
    simp only [crawlLoopFuel]
    rw [if_pos hg, hn, crawlLoop_continue env K st hg]
  · intro st hng
    refine ⟨0, ?_⟩
    simp only [crawlLoopFuel]
    rw [if_neg hng, crawlLoop_stop env K st hng]

/-- The loop condition fails at the crawl loop's result. -/
theorem crawlLoop_final (env : Env) (K : Nat) :
    ∀ st, ¬((crawlLoop env K st).urlsToVisit ≠ [] ∧
      (crawlLoop env K st).pagesScrapedCount < K) := by
  refine crawlLoop_rec env K _ ?_ ?_
  · intro st hg ih
    rw [crawlLoop_continue env K st hg]
    exact ih
  · intro st hng
    rw [crawlLoop_stop env K st hng]
    exact hng

/-- Every piece of the fuel-indexed hard cut stays within the size bound,
given enough fuel. -/
theorem hardCutAux_bound (maxSize : Nat) (hm : 0 < maxSize) :
    ∀ (fuel : Nat) (t : List Char), t.length ≤ fuel →
      ∀ p ∈ hardCutAux maxSize fuel t, p.length ≤ maxSize
  | 0, t, hle, p, hp => by
    simp only [hardCutAux, List.mem_singleton] at hp
    rw [hp]
    omega
  | fuel + 1, t, hle, p, hp => by
    by_cases h : t.length ≤ maxSize
    · simp only [hardCutAux, if_pos h, List.mem_singleton] at hp
      rw [hp]
      exact h
    · simp only [hardCutAux, if_neg h, List.mem_cons] at hp
      rcases hp with rfl | hp
      · rw [List.length_take]
        exact min_le_left _ _
      · exact hardCutAux_bound maxSize hm fuel (t.drop maxSize)
          (by rw [List.length_drop]; omega) p hp

/-- Every piece of the hard cut stays within a positive size bound. -/
theorem hardCut_bound (maxSize : Nat) (hm : 0 < maxSize) (t : List Char) :
    ∀ p ∈ hardCut maxSize t, p.length ≤ maxSize := by
  intro p hp
  unfold hardCut at hp
  rw [if_neg (by omega)] at hp
  exact hardCutAux_bound maxSize hm t.length t le_rfl p hp

/-- Every unit produced by the recursive splitting phase stays within a
positive size bound. -/
theorem splitUnits_bound (maxSize : Nat) (hm : 0 < maxSize) :
    ∀ (seps : List (List Char)) (t : List Char),
      ∀ u ∈ splitUnits maxSize seps t, u.length ≤ maxSize
  | [], t, u, hu => by
    simp only [splitUnits] at hu
    by_cases h : t.length ≤ maxSize
    · rw [if_pos h] at hu
      rw [List.mem_singleton.mp hu]
      exact h
    · rw [if_neg h] at hu
      exact hardCut_bound maxSize hm t u hu
  | s :: rest, t, u, hu => by
    simp only [splitUnits] at hu
    by_cases h : t.length ≤ maxSize
    · rw [if_pos h] at hu
      rw [List.mem_singleton.mp hu]
      exact h
    · rw [if_neg h] at hu
      by_cases h2 : (splitOnL s t).length ≤ 1
      · rw [if_pos h2] at hu
        exact splitUnits_bound maxSize hm rest t u hu
      · rw [if_neg h2] at hu
        obtain ⟨p, _, hp⟩ := List.mem_flatMap.mp hu
        exact splitUnits_bound maxSize hm rest p u hp

/-- Every chunk produced by the merge phase stays within the size bound
when the buffer and all units do. -/
theorem mergeUnits_bound (maxSize overlap : Nat) (sep : List Char) :
    ∀ (us : List (List Char)) (buf : List Char), buf.length ≤ maxSize →
      (∀ u ∈ us, u.length ≤ maxSize) →
      ∀ c ∈ mergeUnits maxSize overlap sep buf us, c.length ≤ maxSize
  | [], buf, hb, _, c, hc => by
    simp only [mergeUnits] at hc
    by_cases hbuf : buf = []
    · rw [if_pos hbuf] at hc
      simp at hc
    · rw [if_neg hbuf] at hc
      rw [List.mem_singleton.mp hc]
      exact hb
  | u :: us, buf, hb, hus, c, hc => by
    simp only [mergeUnits] at hc
    by_cases hbuf : buf = []
    · rw [if_pos hbuf] at hc
      exact mergeUnits_bound maxSize overlap sep us u (hus u (List.mem_cons_self u us))
        (fun v hv => hus v (List.mem_cons_of_mem u hv)) c hc
    · rw [if_neg hbuf] at hc
      by_cases hfit : buf.length + sep.length + u.length ≤ maxSize
      · rw [if_pos hfit] at hc
        refine mergeUnits_bound maxSize overlap sep us (buf ++ sep ++ u) ?_
          (fun v hv => hus v (List.mem_cons_of_mem u hv)) c hc
        simp only [List.length_append]
        omega
      · rw [if_neg hfit] at hc
        rcases List.mem_cons.mp hc with rfl | hc
        · exact hb
        · refine mergeUnits_bound maxSize overlap sep us _ ?_
            (fun v hv => hus v (List.mem_cons_of_mem u hv)) c hc
          by_cases hov : (buf.drop (buf.length - overlap)).length + sep.length
              + u.length ≤ maxSize
          · rw [if_pos hov]
            simp only [List.length_append]
            omega
          · rw [if_neg hov]
            exact hus u (List.mem_cons_self u us)

/-- Every chunk text produced by the modelled splitter at the source's
parameters has at most 2000 characters. -/
theorem splitText_bound (t : String) :
    ∀ s ∈ splitText 2000 200 t, s.length ≤ 2000 := by
  intro s hs
  unfold splitText at hs
  obtain ⟨cs, hcs, rfl⟩ := List.mem_map.mp hs
  show cs.length ≤ 2000
  refine mergeUnits_bound 2000 200 [' '] _ [] (by simp) ?_ cs hcs
  exact splitUnits_bound 2000 (by omega) separatorsL t.toList

/-- The chunk list is as long as the split list. -/
theorem mkChunks_length (url title : String) :
    ∀ (n : Nat) (l : List String), (mkChunks url title n l).length = l.length
  | _, [] => rfl
  | n, t :: ts => by simp [mkChunks, mkChunks_length url title (n + 1) ts]

/-- Each produced chunk carries a chunk id offset by its position and the
unchanged title and URL. -/
theorem mkChunks_get (url title : String) :
    ∀ (l : List String) (n i : Nat) (h : i < (mkChunks url title n l).length),
      ((mkChunks url title n l).get ⟨i, h⟩).chunk_id = n + i ∧
      ((mkChunks url title n l).get ⟨i, h⟩).title = title ∧
      ((mkChunks url title n l).get ⟨i, h⟩).url = url
  | [], n, i, h => by simp [mkChunks] at h
  | t :: ts, n, 0, h => by
    refine ⟨?_, rfl, rfl⟩
    simp [mkChunks]
  | t :: ts, n, i + 1, h => by
    have h2 : i < (mkChunks url title (n + 1) ts).length := by
      have h3 := h
      simp only [mkChunks, List.length_cons] at h3
      omega
    have ih := mkChunks_get url title ts (n + 1) i h2
    refine ⟨?_, ih.2.1, ih.2.2⟩
    show ((mkChunks url title (n + 1) ts).get ⟨i, h2⟩).chunk_id = n + (i + 1)
    rw [ih.1]
    omega

/-- The chunk found at each position carries a chunk id offset by that
position and the unchanged title and URL. -/
theorem mkChunks_getElem (url title : String) :
    ∀ (l : List String) (n i : Nat) (c : Chunk),
      (mkChunks url title n l)[i]? = some c →
      c.chunk_id = n + i ∧ c.title = title ∧ c.url = url
  | [], n, i, c, h => by simp [mkChunks] at h
  | t :: ts, n, 0, c, h => by
    have h3 : mkChunks url title n (t :: ts)
        = (⟨url, title, n, t⟩ : Chunk) :: mkChunks url title (n + 1) ts := rfl
    rw [h3, List.getElem?_cons_zero] at h
    have h2 : c = ⟨url, title, n, t⟩ := (Option.some_inj.mp h).symm
    rw [h2]
    exact ⟨rfl, rfl, rfl⟩
  | t :: ts, n, i + 1, c, h => by
    have h3 : mkChunks url title n (t :: ts)
        = (⟨url, title, n, t⟩ : Chunk) :: mkChunks url title (n + 1) ts := rfl
    rw [h3, List.getElem?_cons_succ] at h
    have ih := mkChunks_getElem url title ts (n + 1) i c h
    refine ⟨?_, ih.2.1, ih.2.2⟩
    rw [ih.1]
    omega

/-- The text of each produced chunk is one of the split texts. -/
theorem mkChunks_text_mem (url title : String) :
    ∀ (n : Nat) (l : List String) (c : Chunk), c ∈ mkChunks url title n l → c.text ∈ l
  | n, [], c, hc => by simp [mkChunks] at hc
  | n, t :: ts, c, hc => by
    rcases List.mem_cons.mp hc with rfl | hc
    · exact List.mem_cons_self _ _
    · exact List.mem_cons_of_mem t (mkChunks_text_mem url title (n + 1) ts c hc)

/-- Each ingredients item adds at least two characters to the accumulated
ingredients text. -/
theorem ingFold_ge :
    ∀ (items : List String) (acc : String),
      acc.length + 2 * items.length ≤
        (items.foldl (fun a item => a ++ clean_text item ++ "; ") acc).length
  | [], acc => by simp
  | item :: its, acc => by
    have ih := ingFold_ge its (acc ++ clean_text item ++ "; ")
    have hlen : (acc ++ clean_text item ++ "; ").length
        = acc.length + (clean_text item).length + 2 := by
      rw [String.length_append, String.length_append]
      rfl
    simp only [List.foldl_cons, List.length_cons]
    omega

/-- The nutrition fold is monotone in length and grows by at least two
characters when some row has a cell. -/
theorem nutFold_ge :
    ∀ (rows : List (List String)) (acc : String),
      acc.length ≤ (rows.foldl
        (fun a row => if row.map clean_text ≠ [] then
          a ++ joinWith " | " (row.map clean_text) ++ "; " else a) acc).length ∧
      ((∃ row ∈ rows, row ≠ []) → acc.length + 2 ≤ (rows.foldl
        (fun a row => if row.map clean_text ≠ [] then
          a ++ joinWith " | " (row.map clean_text) ++ "; " else a) acc).length)
  | [], acc => by simp
  | row :: rs, acc => by
    by_cases hrow : row.map clean_text ≠ []
    · have ih := nutFold_ge rs (acc ++ joinWith " | " (row.map clean_text) ++ "; ")
      have hlen : (acc ++ joinWith " | " (row.map clean_text) ++ "; ").length
          = acc.length + (joinWith " | " (row.map clean_text)).length + 2 := by
        rw [String.length_append, String.length_append]
        rfl
      simp only [List.foldl_cons, if_pos hrow]
      constructor
      · omega
      · intro _
        omega
    · have ih := nutFold_ge rs acc
      simp only [List.foldl_cons, if_neg hrow]
      refine ⟨ih.1, ?_⟩
      rintro ⟨r, hr, hne⟩
      rcases List.mem_cons.mp hr with rfl | hr
      · exact absurd (by simpa using hrow) hne
      · exact ih.2 ⟨r, hr, hne⟩

/-- The nutrition fold leaves the accumulator unchanged when every row is
empty. -/
theorem nutFold_empty :
    ∀ (rows : List (List String)) (acc : String), (∀ row ∈ rows, row = []) →
      rows.foldl
        (fun a row => if row.map clean_text ≠ [] then
          a ++ joinWith " | " (row.map clean_text) ++ "; " else a) acc = acc
  | [], acc, _ => rfl
  | row :: rs, acc, hall => by
    have h0 : row = [] := hall row (List.mem_cons_self row rs)
    simp only [List.foldl_cons, h0]
    simp only [List.map_nil, ne_eq, not_true_eq_false, if_false]
    exact nutFold_empty rs acc (fun r hr => hall r (List.mem_cons_of_mem row hr))

/-- The characterization of is_valid_url as a conjunction of its checks. -/
theorem is_valid_url_iff (url : String) :
    is_valid_url url = true ↔
      ((urlparse url).scheme = "http" ∨ (urlparse url).scheme = "https") ∧
      (urlparse url).netloc = (urlparse BASE_URL).netloc ∧
      disallowedExts.any (fun e => endsWithS e (urlparse url).path) = false ∧
      (urlparse url).query = "" ∧
      containsSubS "mailto:" url = false ∧
      containsSubS "tel:" url = false := by
  unfold is_valid_url
  simp only [Bool.and_eq_true, Bool.or_eq_true, beq_iff_eq, Bool.not_eq_true']
  tauto

/-- A list starting with a pattern contains it as a contiguous
sublist. -/
theorem containsSub_of_isPrefixOf {sub cs : List Char}
    (h : sub.isPrefixOf cs = true) : containsSub sub cs = true := by
  cases cs with
  | nil =>
    cases sub with
    | nil => rfl
    | cons c cs' => simp [List.isPrefixOf] at h
  | cons c rest => simp [containsSub, h]

/-- On a well-formed parsed page, extract_meaningful_content succeeds and
returns exactly what the loop's total extraction returns. -/
theorem extractWf_agrees (soup : WfSoup) :
    extract_meaningful_content soup.toSoup = Except.ok (extractWf soup) := by
  rcases h : soup.title with _ | s <;>
    simp [extract_meaningful_content, extractWf, WfSoup.toSoup, h]

/-- C1: For every crawl run (any fetcher, parser, link set and interpreter
set order, any page budget K, any seed URL), no URL is fetched more than
once: the recorded fetch attempts carry pairwise distinct URLs, the
visited set holds each URL at most once, and the pending queue never holds
a duplicate or an already visited URL, so a URL already visited or already
queued is never enqueued again. -/
theorem spec_c1 (env : Env) (K : Nat) (seed : String) :
    (fetchedUrls (crawlLoop env K (initState seed)).trace).Nodup ∧
    (crawlLoop env K (initState seed)).visitedUrls.Nodup ∧
    (crawlLoop env K (initState seed)).urlsToVisit.Nodup ∧
    (∀ u ∈ (crawlLoop env K (initState seed)).urlsToVisit,
      u ∉ (crawlLoop env K (initState seed)).visitedUrls) := by
  obtain ⟨h1, h2, h3, h4, _, _, _, _, _⟩ :=
    crawlLoop_inv env K (initState seed) (inv_init K seed)
  exact ⟨h4, h3, h1, h2⟩

/-- Witness for C1 at a concrete environment, budget and seed. -/
theorem spec_c1_witness :
    (fetchedUrls (crawlLoop env0 MAX_PAGES_TO_SCRAPE (initState BASE_URL)).trace).Nodup ∧
    (crawlLoop env0 MAX_PAGES_TO_SCRAPE (initState BASE_URL)).visitedUrls.Nodup ∧
    (crawlLoop env0 MAX_PAGES_TO_SCRAPE (initState BASE_URL)).urlsToVisit.Nodup ∧
    (∀ u ∈ (crawlLoop env0 MAX_PAGES_TO_SCRAPE (initState BASE_URL)).urlsToVisit,
      u ∉ (crawlLoop env0 MAX_PAGES_TO_SCRAPE (initState BASE_URL)).visitedUrls) :=
  spec_c1 env0 MAX_PAGES_TO_SCRAPE BASE_URL

/-- C2: For every seed URL, every fetcher/link-discovery behaviour and
every page budget K, the crawl loop terminates (some finite fuel reaches
its result), at most K pages are successfully fetched, the consumed-page
counter equals the number of successful fetches, and the loop ends exactly
when the queue is empty or the counter reaches K. -/
theorem spec_c2 (env : Env) (K : Nat) (seed : String) :
    (∃ n, crawlLoopFuel env K n (initState seed)
      = some (crawlLoop env K (initState seed))) ∧
    (crawlLoop env K (initState seed)).pagesScrapedCount ≤ K ∧
    (crawlLoop env K (initState seed)).pagesScrapedCount
      = countSucc (crawlLoop env K (initState seed)).trace ∧
    countSucc (crawlLoop env K (initState seed)).trace ≤ K ∧
    ((crawlLoop env K (initState seed)).urlsToVisit = []
      ∨ (crawlLoop env K (initState seed)).pagesScrapedCount = K) ∧
    (∀ st : CrawlState, st.urlsToVisit = [] ∨ K ≤ st.pagesScrapedCount →
      crawlLoop env K st = st) := by
  obtain ⟨_, _, _, _, _, hle, hcnt, _, _⟩ :=
    crawlLoop_inv env K (initState seed) (inv_init K seed)
  have hfin := crawlLoop_final env K (initState seed)
  refine ⟨crawlLoopFuel_exists env K (initState seed), hle, hcnt, by omega, ?_, ?_⟩
  · by_cases hq : (crawlLoop env K (initState seed)).urlsToVisit = []
    · exact Or.inl hq
    · right
      have hnlt : ¬(crawlLoop env K (initState seed)).pagesScrapedCount < K :=
        fun hlt => hfin ⟨hq, hlt⟩
      omega
  · intro st hst
    refine crawlLoop_stop env K st ?_
    rintro ⟨hq, hlt⟩
    rcases hst with h | h
    · exact hq h
    · omega

/-- Witness for C2 at a concrete environment, budget and seed. -/
theorem spec_c2_witness :
    (∃ n, crawlLoopFuel env0 MAX_PAGES_TO_SCRAPE n (initState BASE_URL)
      = some (crawlLoop env0 MAX_PAGES_TO_SCRAPE (initState BASE_URL))) ∧
    (crawlLoop env0 MAX_PAGES_TO_SCRAPE (initState BASE_URL)).pagesScrapedCount
      ≤ MAX_PAGES_TO_SCRAPE ∧
    (crawlLoop env0 MAX_PAGES_TO_SCRAPE (initState BASE_URL)).pagesScrapedCount
      = countSucc (crawlLoop env0 MAX_PAGES_TO_SCRAPE (initState BASE_URL)).trace ∧
    countSucc (crawlLoop env0 MAX_PAGES_TO_SCRAPE (initState BASE_URL)).trace
      ≤ MAX_PAGES_TO_SCRAPE ∧
    ((crawlLoop env0 MAX_PAGES_TO_SCRAPE (initState BASE_URL)).urlsToVisit = []
      ∨ (crawlLoop env0 MAX_PAGES_TO_SCRAPE (initState BASE_URL)).pagesScrapedCount
        = MAX_PAGES_TO_SCRAPE) ∧
    (∀ st : CrawlState, st.urlsToVisit = [] ∨ MAX_PAGES_TO_SCRAPE ≤ st.pagesScrapedCount →
      crawlLoop env0 MAX_PAGES_TO_SCRAPE st = st) :=
  spec_c2 env0 MAX_PAGES_TO_SCRAPE BASE_URL

/-- C3 counterexample: with the fetcher failing on the seed, the run's
trace holds a fetch attempt not followed by any sleep event, so the
politeness delay is not applied after every fetch attempt. -/
theorem spec_c3_counterexample :
    allSlept (crawlLoop env0 MAX_PAGES_TO_SCRAPE (initState BASE_URL)).trace = false ∧
    (crawlLoop env0 MAX_PAGES_TO_SCRAPE (initState BASE_URL)).trace
      = [Ev.fetch BASE_URL false] := by
  have h1 : crawlLoop env0 MAX_PAGES_TO_SCRAPE (initState BASE_URL)
      = crawlLoop env0 MAX_PAGES_TO_SCRAPE (crawlIter env0 (initState BASE_URL)) :=
    crawlLoop_continue env0 MAX_PAGES_TO_SCRAPE (initState BASE_URL) (by decide)
  have h2 : crawlIter env0 (initState BASE_URL)
      = { allChunks := [], urlsToVisit := [], visitedUrls := [BASE_URL],
          pagesScrapedCount := 0, trace := [Ev.fetch BASE_URL false] } := by decide
  have h3 : crawlLoop env0 MAX_PAGES_TO_SCRAPE
      ({ allChunks := [], urlsToVisit := [], visitedUrls := [BASE_URL],
         pagesScrapedCount := 0, trace := [Ev.fetch BASE_URL false] } : CrawlState)
      = { allChunks := [], urlsToVisit := [], visitedUrls := [BASE_URL],
          pagesScrapedCount := 0, trace := [Ev.fetch BASE_URL false] } :=
    crawlLoop_stop env0 MAX_PAGES_TO_SCRAPE _ (by decide)
  rw [h1, h2, h3]
  exact ⟨rfl, rfl⟩

/-- C3 (amended): the politeness delay is applied before the next
iteration after every successful fetch; a failed fetch attempt is not
followed by a delay. -/
theorem spec_c3 (env : Env) (K : Nat) (seed : String) :
    succSlept (crawlLoop env K (initState seed)).trace = true := by
  obtain ⟨_, _, _, _, _, _, _, hsl, _⟩ :=
    crawlLoop_inv env K (initState seed) (inv_init K seed)
  exact hsl

/-- Witness for C3 at a concrete environment, budget and seed. -/
theorem spec_c3_witness :
    succSlept (crawlLoop env0 MAX_PAGES_TO_SCRAPE (initState BASE_URL)).trace = true :=
  spec_c3 env0 MAX_PAGES_TO_SCRAPE BASE_URL

/-- C4 counterexample: two legitimate interpreter set orders (identity and
reversal, both permutations) give link lists that agree as sets but not as
ordered lists, so the returned order is not determined by the inputs
alone. -/
theorem spec_c4_counterexample :
    (extract_links (fun l => l) anchorsC4 BASE_URL).Perm
      (extract_links List.reverse anchorsC4 BASE_URL) ∧
    extract_links (fun l => l) anchorsC4 BASE_URL
      ≠ extract_links List.reverse anchorsC4 BASE_URL := by
  constructor
  · decide
  · decide

/-- C4 (amended): for a fixed interpreter set order, extract_links is a
function of its inputs; across any two legitimate set orders (functions
that permute their input) the results on equal inputs are permutations of
each other, so the produced set of links is input determined while the
order may vary between interpreter runs. -/
theorem spec_c4 (ord1 ord2 : List String → List String)
    (h1 : ∀ l, (ord1 l).Perm l) (h2 : ∀ l, (ord2 l).Perm l)
    (anchors : List String) (current_url : String) :
    (extract_links ord1 anchors current_url).Perm
      (extract_links ord2 anchors current_url) := by
  unfold extract_links
  exact (h1 _).trans (h2 _).symm

/-- Witness for C4 at concrete orders and anchors. -/
theorem spec_c4_witness :
    (extract_links (fun l => l) anchorsC4 BASE_URL).Perm
      (extract_links List.reverse anchorsC4 BASE_URL) :=
  spec_c4 (fun l => l) List.reverse (fun l => List.Perm.refl l)
    (fun l => List.reverse_perm l) anchorsC4 BASE_URL

/-- C5 counterexample: a same-host, clean-path, query-free https URL that
is nevertheless rejected, because the substring check for tel: fires
inside a path segment. -/
theorem spec_c5_counterexample :
    (urlparse urlX).scheme = "https" ∧
    (urlparse urlX).netloc = (urlparse BASE_URL).netloc ∧
    disallowedExts.any (fun e => endsWithS e (urlparse urlX).path) = false ∧
    (urlparse urlX).query = "" ∧
    is_valid_url urlX = false := by
  refine ⟨?_, ?_, ?_, ?_, ?_⟩ <;> decide

/-- C5 (amended): is_valid_url rejects any URL with a foreign host, a
disallowed path ending, a nonempty query, or a mailto:/tel: marker
(whether as the leading scheme or as a substring anywhere in the URL
text), and accepts every same-host, clean-path, query-free http(s) URL
whose text does not contain mailto: or tel: as a substring. -/
theorem spec_c5 (url : String) :
    ((urlparse url).netloc ≠ (urlparse BASE_URL).netloc → is_valid_url url = false) ∧
    (disallowedExts.any (fun e => endsWithS e (urlparse url).path) = true →
      is_valid_url url = false) ∧
    ((urlparse url).query ≠ "" → is_valid_url url = false) ∧
    (containsSubS "mailto:" url = true → is_valid_url url = false) ∧
    (containsSubS "tel:" url = true → is_valid_url url = false) ∧
    (startsWithS "mailto:" url = true → is_valid_url url = false) ∧
    (startsWithS "tel:" url = true → is_valid_url url = false) ∧
    (((urlparse url).scheme = "http" ∨ (urlparse url).scheme = "https") →
      (urlparse url).netloc = (urlparse BASE_URL).netloc →
      disallowedExts.any (fun e => endsWithS e (urlparse url).path) = false →
      (urlparse url).query = "" →
      containsSubS "mailto:" url = false → containsSubS "tel:" url = false →
      is_valid_url url = true) := by
  refine ⟨?_, ?_, ?_, ?_, ?_, ?_, ?_, ?_⟩
  · intro hX
    rw [Bool.eq_false_iff]
    intro htrue
    exact hX ((is_valid_url_iff url).mp htrue).2.1
  · intro hX
    rw [Bool.eq_false_iff]
    intro htrue
    have he := ((is_valid_url_iff url).mp htrue).2.2.1
    rw [hX] at he
    exact Bool.noConfusion he
  · intro hX
    rw [Bool.eq_false_iff]
    intro htrue
    exact hX ((is_valid_url_iff url).mp htrue).2.2.2.1
  · intro hX
    rw [Bool.eq_false_iff]
    intro htrue
    have hm := ((is_valid_url_iff url).mp htrue).2.2.2.2.1
    rw [hX] at hm
    exact Bool.noConfusion hm
  · intro hX
    rw [Bool.eq_false_iff]
    intro htrue
    have ht := ((is_valid_url_iff url).mp htrue).2.2.2.2.2
    rw [hX] at ht
    exact Bool.noConfusion ht
  · intro hX
    rw [Bool.eq_false_iff]
    intro htrue
    have hm := ((is_valid_url_iff url).mp htrue).2.2.2.2.1
    have hcs : containsSubS "mailto:" url = true := containsSub_of_isPrefixOf hX
    rw [hcs] at hm
    exact Bool.noConfusion hm
  · intro hX
    rw [Bool.eq_false_iff]
    intro htrue
    have ht := ((is_valid_url_iff url).mp htrue).2.2.2.2.2
    have hcs : containsSubS "tel:" url = true := containsSub_of_isPrefixOf hX
    rw [hcs] at ht
    exact Bool.noConfusion ht
  · intro hs hn he hq hm ht
    exact (is_valid_url_iff url).mpr ⟨hs, hn, he, hq, hm, ht⟩

/-- Witness for C5 at concrete accepted and rejected URLs. -/
theorem spec_c5_witness :
    is_valid_url "https://www.madewithnestle.ca/recipes" = true ∧
    is_valid_url "https://other.example.com/" = false ∧
    is_valid_url "https://www.madewithnestle.ca/doc.pdf" = false ∧
    is_valid_url "https://www.madewithnestle.ca/a?q=1" = false ∧
    is_valid_url "mailto:info@nestle.ca" = false ∧
    is_valid_url "tel:+14165551234" = false :=
  ⟨(spec_c5 "https://www.madewithnestle.ca/recipes").2.2.2.2.2.2.2
      (by decide) (by decide) (by decide) (by decide) (by decide) (by decide),
   (spec_c5 "https://other.example.com/").1 (by decide),
   (spec_c5 "https://www.madewithnestle.ca/doc.pdf").2.1 (by decide),
   (spec_c5 "https://www.madewithnestle.ca/a?q=1").2.2.1 (by decide),
   (spec_c5 "mailto:info@nestle.ca").2.2.2.2.2.1 (by decide),
   (spec_c5 "tel:+14165551234").2.2.2.2.2.2.1 (by decide)⟩

/-- C6: Every chunk emitted by chunk_page_content (chunk size 2000,
overlap 200) has text of at most 2000 characters, or is an indivisible
unit (splitting by every separator leaves it whole) longer than the limit;
in fact the first disjunct always holds, because the hard character cut is
the final fallback of the splitter. -/
theorem spec_c6 (title page_text url : String) (c : Chunk)
    (hc : c ∈ chunk_page_content title page_text url) :
    c.text.length ≤ 2000 ∨
      (2000 < c.text.length ∧
        ∀ s ∈ separatorsL, (splitOnL s c.text.toList).length ≤ 1) := by
  left
  unfold chunk_page_content at hc
  by_cases h : page_text = ""
  · rw [if_pos h] at hc
    simp at hc
  · rw [if_neg h] at hc
    exact splitText_bound page_text c.text (mkChunks_text_mem url title 0 _ c hc)

/-- Witness for C6 at a concrete page text. -/
theorem spec_c6_witness :
    (⟨"u", "t", 0, "hello"⟩ : Chunk) ∈ chunk_page_content "t" "hello" "u" ∧
    ((⟨"u", "t", 0, "hello"⟩ : Chunk).text.length ≤ 2000 ∨
      (2000 < (⟨"u", "t", 0, "hello"⟩ : Chunk).text.length ∧
        ∀ s ∈ separatorsL,
          (splitOnL s (⟨"u", "t", 0, "hello"⟩ : Chunk).text.toList).length ≤ 1)) :=
  ⟨by decide, spec_c6 "t" "hello" "u" ⟨"u", "t", 0, "hello"⟩ (by decide)⟩

/-- C7: chunk_page_content returns an empty sequence on empty body text,
and otherwise every chunk's chunk_id equals its zero-based position in the
per-page output while the supplied title and url are attached
unchanged. -/
theorem spec_c7 (title page_text url : String) :
    (page_text = "" → chunk_page_content title page_text url = []) ∧
    (∀ (i : Nat) (c : Chunk), (chunk_page_content title page_text url)[i]? = some c →
      c.chunk_id = i ∧ c.title = title ∧ c.url = url) := by
  constructor
  · intro h
    unfold chunk_page_content
    rw [if_pos h]
  · intro i c hc
    unfold chunk_page_content at hc
    by_cases hp : page_text = ""
    · rw [if_pos hp] at hc
      simp at hc
    · rw [if_neg hp] at hc
      have h2 := mkChunks_getElem url title (splitText 2000 200 page_text) 0 i c hc
      simpa using h2

/-- Witness for C7 at concrete empty and nonempty page texts. -/
theorem spec_c7_witness :
    chunk_page_content "t" "" "u" = [] ∧
    (chunk_page_content "t" "hello" "u")[0]? = some (⟨"u", "t", 0, "hello"⟩ : Chunk) ∧
    ((⟨"u", "t", 0, "hello"⟩ : Chunk).chunk_id = 0 ∧
      (⟨"u", "t", 0, "hello"⟩ : Chunk).title = "t" ∧
      (⟨"u", "t", 0, "hello"⟩ : Chunk).url = "u") :=
  ⟨(spec_c7 "t" "" "u").1 rfl, by decide,
   (spec_c7 "t" "hello" "u").2 0 ⟨"u", "t", 0, "hello"⟩ (by decide)⟩

/-- C8 counterexample: a document whose title element is present but has
no string child (e.g. an empty title element, for which the parser's
string attribute is None) makes line 76 hand None to clean_text, whose
re.sub call raises a TypeError - so extraction neither returns the title
element's text nor avoids raising at this input. -/
theorem spec_c8_counterexample :
    soupX.title = some { string := none } ∧
    extract_meaningful_content soupX
      = Except.error "TypeError: expected string or bytes-like object" :=
  ⟨rfl, rfl⟩

/-- C8 (amended): when a title element with a string child is present,
extraction returns that text normalized and trimmed; with no title
element it returns the fixed placeholder; when the document yields no
content region the returned body text is empty; but when a title element
is present whose string attribute is missing (empty or multi-child title
element), extraction raises a TypeError - modelled as the error result -
instead of returning. -/
theorem spec_c8 (soup : Soup) :
    (∀ (t : TitleTag) (s : String), soup.title = some t → t.string = some s →
      ∃ body, extract_meaningful_content soup = Except.ok (clean_text s, body)) ∧
    (soup.title = none →
      ∃ body, extract_meaningful_content soup = Except.ok ("No Title", body)) ∧
    (∀ t : TitleTag, soup.title = some t → t.string = none →
      extract_meaningful_content soup
        = Except.error "TypeError: expected string or bytes-like object") ∧
    (soup.mainRegions = [] → soup.body = none → ∀ title body,
      extract_meaningful_content soup = Except.ok (title, body) → body = "") := by
  refine ⟨?_, ?_, ?_, ?_⟩
  · intro t s ht hs
    simp only [extract_meaningful_content, ht, hs]
    exact ⟨_, rfl⟩
  · intro ht
    simp only [extract_meaningful_content, ht]
    have hclean : clean_text "No Title" = "No Title" := by decide
    rw [hclean]
    exact ⟨_, rfl⟩
  · intro t ht hs
    simp only [extract_meaningful_content, ht, hs]
  · intro hm hb title body h
    rcases hst : soup.title with _ | t
    · simp only [extract_meaningful_content, hst, hm, hb, joinWith] at h
      simp at h
      exact h.2.symm
    · rcases hss : t.string with _ | s
      · simp only [extract_meaningful_content, hst, hss] at h
        exact Except.noConfusion h
      · simp only [extract_meaningful_content, hst, hss, hm, hb, joinWith] at h
        simp at h
        exact h.2.symm

/-- Witness for C8 at concrete documents: a title with a string child, a
missing title element, the raising empty title element, and the empty
body text of a region-free document. -/
theorem spec_c8_witness :
    (∃ body, extract_meaningful_content soupW
      = Except.ok (clean_text "  My   Page ", body)) ∧
    (∃ body, extract_meaningful_content soupN = Except.ok ("No Title", body)) ∧
    extract_meaningful_content soupX
      = Except.error "TypeError: expected string or bytes-like object" ∧
    ("" : String) = "" :=
  ⟨(spec_c8 soupW).1 { string := some "  My   Page " } "  My   Page " rfl rfl,
   (spec_c8 soupN).2.1 rfl,
   (spec_c8 soupX).2.2.1 { string := none } rfl rfl,
   (spec_c8 soupW).2.2.2 rfl rfl (clean_text "  My   Page ") "" rfl⟩

/-- C9 counterexample: an ingredients container whose single item
normalizes to empty text still emits a section (the bare prefixed text),
because the accumulating loop appends its separator even for an empty
item, making the length check pass. -/
theorem spec_c9_counterexample :
    regionC9.ingredientsItems = some [" "] ∧
    clean_text " " = "" ∧
    ingredientsSection regionC9 = ["Ingredients: "] ∧
    ingredientsSection regionC9 ≠ [] := by
  refine ⟨rfl, ?_, ?_, ?_⟩ <;> decide

/-- C9 (amended): the ingredients section is emitted exactly when the
selected container holds at least one item, and the nutrition section
exactly when the selected table holds at least one row with a cell - even
when every item or cell text normalizes to empty, in which case the
emitted section is the bare prefix. -/
theorem spec_c9 (content_area : Region) :
    (∀ items, content_area.ingredientsItems = some items →
      (ingredientsSection content_area ≠ [] ↔ items ≠ [])) ∧
    (∀ rows, content_area.nutritionRows = some rows →
      (nutritionSection content_area ≠ [] ↔ ∃ row ∈ rows, row ≠ [])) := by
  constructor
  · intro items hi
    simp only [ingredientsSection, hi]
    rcases items with _ | ⟨item, its⟩
    · simp
    · have hge := ingFold_ge (item :: its) "Ingredients: "
      have hcond : "Ingredients: ".length <
          ((item :: its).foldl (fun a it => a ++ clean_text it ++ "; ")
            "Ingredients: ").length := by
        simp only [List.length_cons] at hge
        omega
      rw [if_pos hcond]
      simp
  · intro rows hr
    simp only [nutritionSection, hr]
    by_cases hex : ∃ row ∈ rows, row ≠ []
    · have hge := (nutFold_ge rows "Nutritional Information: ").2 hex
      have hcond : "Nutritional Information: ".length <
          (rows.foldl (fun a row => if row.map clean_text ≠ [] then
            a ++ joinWith " | " (row.map clean_text) ++ "; " else a)
            "Nutritional Information: ").length := by
        omega
      rw [if_pos hcond]
      simp [hex]
    · have hall : ∀ row ∈ rows, row = [] := by
        intro r hr2
        by_contra hne
        exact hex ⟨r, hr2, hne⟩
      rw [nutFold_empty rows "Nutritional Information: " hall]
      rw [if_neg (lt_irrefl _)]
      simp [hex]

/-- Witness for C9 at a concrete region with ingredients and a nutrition
table. -/
theorem spec_c9_witness :
    (ingredientsSection regionW ≠ [] ↔ (["2 cups flour"] : List String) ≠ []) ∧
    (nutritionSection regionW ≠ [] ↔
      ∃ row ∈ [["Calories", "200"], ([] : List String)], row ≠ []) :=
  ⟨(spec_c9 regionW).1 ["2 cups flour"] rfl,
   (spec_c9 regionW).2 [["Calories", "200"], []] rfl⟩

/-- C10: In every state reachable in the crawl loop from the initial
state, the pending queue holds no duplicate URLs and no URL in the visited
set, and the dequeue-time skip branch has never run. -/
theorem spec_c10 (env : Env) (K : Nat) (seed : String) (st : CrawlState)
    (h : Reach env K (initState seed) st) :
    st.urlsToVisit.Nodup ∧ (∀ u ∈ st.urlsToVisit, u ∉ st.visitedUrls) ∧
    Ev.skip ∉ st.trace := by
  obtain ⟨h1, h2, _, _, _, _, _, _, h9⟩ := reach_inv env K h (inv_init K seed)
  exact ⟨h1, h2, h9⟩

/-- Witness for C10 at the initial state of a concrete run. -/
theorem spec_c10_witness :
    (initState BASE_URL).urlsToVisit.Nodup ∧
    (∀ u ∈ (initState BASE_URL).urlsToVisit, u ∉ (initState BASE_URL).visitedUrls) ∧
    Ev.skip ∉ (initState BASE_URL).trace :=
  spec_c10 env0 MAX_PAGES_TO_SCRAPE BASE_URL (initState BASE_URL)
    (Reach.refl (initState BASE_URL))

end Scraper
